import Mathlib

/-!
Verification of the crosswalk-tizen extension server
(`src/extension/extension_server.cc`), shallowly embedded in Lean.

The `ExtensionServer` state is the record of its member fields:
`extensions_` (a `std::map<std::string, Extension*>`), `extension_symbols_`
(a `std::set<std::string>`), `instances_` (a `std::map` from instance id to
`ExtensionInstance*`), plus the emitted `OnMessageToJS` signals and the
peer-connection status.  `std::map` is embedded as an association list with
insert-or-assign and first-match lookup; `std::set` as a duplicate-free list.
-/

namespace ExtServer

/-- Keys of an association list (the key set of a `std::map`). -/
def keys {K V : Type} (l : List (K × V)) : List K := l.map Prod.fst

/-- `std::map::find`: first entry with the given key, if any. -/
def lookupKey {K V : Type} [DecidableEq K] : List (K × V) → K → Option V
  | [], _ => none
  | p :: rest, k => if p.1 = k then some p.2 else lookupKey rest k

/-- `std::map::operator[] = v`: assign at an existing key, else append a
fresh entry. -/
def mapInsert {K V : Type} [DecidableEq K] : List (K × V) → K → V → List (K × V)
  | [], k, v => [(k, v)]
  | p :: rest, k, v => if p.1 = k then (k, v) :: rest else p :: mapInsert rest k v

/-- `std::map::erase(it)`: remove the (first) entry with the given key. -/
def eraseKey {K V : Type} [DecidableEq K] : List (K × V) → K → List (K × V)
  | [], _ => []
  | p :: rest, k => if p.1 = k then rest else p :: eraseKey rest k

/-- `std::set::insert`: idempotent insertion. -/
def setInsert (l : List String) (x : String) : List String :=
  if x ∈ l then l else x :: l

/-- Modelled from the spec: the behaviour of a loaded `ExtensionInstance`
(the class is declared in `extension/extension.h`, which is not among the
provided sources).  Per spec sections 3 and 4.3, handling an async message may
push messages through the instance's post-message callback, and handling a
sync message may push messages and may produce one synchronous reply through
the sync-reply callback.  `onMessage m` returns the pushed messages;
`onSyncMessage m` returns the pushed messages together with the optional
synchronous reply. -/
structure InstBehavior where
  onMessage : String → List String
  onSyncMessage : String → List String × Option String

/-- Modelled from the spec: a loaded `Extension` module (class declared in
`extension/extension.h`, not among the provided sources).  It exposes a name,
a capability description (`javascript_api`), a list of entry points, the
outcome of `Initialize()` (dynamic loading, external capability), whether the
file at its path exists (`utils::Exists`), and an instance factory that may
fail (`CreateInstance` returning null). -/
structure ExtensionData where
  name : String
  javascript_api : String
  entry_points : List String
  init_ok : Bool
  file_exists : Bool
  factory : Option InstBehavior

/-- A live entry of the `instances_` table: the instance behaviour, the async
and sync messages delivered to it so far, and the currently installed
sync-reply callback (the invocation it is bound to), `none` when no callback
has ever been installed. -/
structure InstanceEntry where
  behavior : InstBehavior
  received : List String
  receivedSync : List String
  syncReplyCb : Option Nat

/-- The `ExtensionServer` state.  Instance ids are drawn from a generator
modelled as the counter `nextId` (the source uses `utils::GenerateUUID`; the
counter realises the spec's requirement that the generator never returns a
previously issued id).  `signals` records the emitted `OnMessageToJS`
signals in order. -/
structure ServerState where
  extensions : List (String × ExtensionData)
  extension_symbols : List String
  instances : List (Nat × InstanceEntry)
  nextId : Nat
  signals : List (Nat × String)
  connOpen : Bool
  listening : Bool
  readySent : Bool

/-- The state of a freshly constructed server. -/
def initState : ServerState :=
  { extensions := [], extension_symbols := [], instances := [], nextId := 0,
    signals := [], connOpen := true, listening := false, readySent := false }

/-- `ExtensionServer::RegisterSymbols`: reject if the module name is already a
registered symbol; reject if any entry point is already a registered symbol;
otherwise insert every entry point and then the name into
`extension_symbols_`.  Returns the success flag and the updated symbol set. -/
def RegisterSymbols (symbols : List String) (m : ExtensionData) :
    Bool × List String :=
  if m.name ∈ symbols then (false, symbols)
  else if ∃ ep ∈ m.entry_points, ep ∈ symbols then (false, symbols)
  else (true, setInsert (m.entry_points.foldl setInsert symbols) m.name)

/-- `ExtensionServer::RegisterExtension`: load the module; if `Initialize`
fails or `RegisterSymbols` rejects, discard it and leave the state unchanged;
otherwise record it in `extensions_` under its name. -/
def RegisterExtension (s : ServerState) (m : ExtensionData) : ServerState :=
  if m.init_ok && (RegisterSymbols s.extension_symbols m).fst then
    { s with
      extensions := mapInsert s.extensions m.name m,
      extension_symbols := (RegisterSymbols s.extension_symbols m).snd }
  else s

/-- Register a sequence of modules in order (the loop bodies of
`RegisterSystemExtensions` and of `Start` over the user paths). -/
def registerAll (s : ServerState) (mods : List ExtensionData) : ServerState :=
  mods.foldl RegisterExtension s

/-- `ExtensionServer::PostMessageToJSCallback`: emit the `OnMessageToJS`
signal for an instance, dropping it when the peer connection is closed. -/
def PostMessageToJSCallback (s : ServerState) (instance_id : Nat)
    (msg : String) : ServerState :=
  if s.connOpen then { s with signals := s.signals ++ [(instance_id, msg)] }
  else s

/-- Emit a list of pushed messages through `PostMessageToJSCallback`. -/
def emitAll (s : ServerState) (instance_id : Nat) (msgs : List String) :
    ServerState :=
  msgs.foldl (fun st msg => PostMessageToJSCallback st instance_id msg) s

/-- Result of the `CreateInstance` DBus method.  The source returns the fresh
id on success and distinct `g_dbus_method_invocation_return_error` messages
for the lookup failure ("Not found extension") and the factory failure
("Failed to create instance"). -/
inductive CreateResult where
  | ok (id : Nat)
  | errNotFound
  | errCreateFailed
deriving DecidableEq, Repr

/-- Result of the `DestroyInstance` DBus method. -/
inductive DestroyResult where
  | ok (id : Nat)
  | errNotFound
deriving DecidableEq, Repr

/-- Result of the `SendSyncMessage` DBus method: a synchronous reply, a still
pending invocation (the handler has not yet called the reply callback), or
the not-found error. -/
inductive SyncResult where
  | replied (r : String)
  | pending
  | errNotFound
deriving DecidableEq, Repr

/-- `ExtensionServer::OnCreateInstance`: draw a fresh id from the generator,
look the extension up by name (error if absent), ask its factory for an
instance (error if it fails), wire the post-message callback and record the
instance under the fresh id. -/
def OnCreateInstance (s : ServerState) (extension_name : String) :
    ServerState × CreateResult :=
  let instance_id := s.nextId
  let s1 : ServerState := { s with nextId := s.nextId + 1 }
  match lookupKey s1.extensions extension_name with
  | none => (s1, CreateResult.errNotFound)
  | some ext =>
    match ext.factory with
    | none => (s1, CreateResult.errCreateFailed)
    | some beh =>
      let entry : InstanceEntry := InstanceEntry.mk beh [] [] none
      ({ s1 with instances := mapInsert s1.instances instance_id entry },
        CreateResult.ok instance_id)

/-- `ExtensionServer::OnDestroyInstance`: look the instance up (error if
absent), delete it and remove it from the table, return its id. -/
def OnDestroyInstance (s : ServerState) (instance_id : Nat) :
    ServerState × DestroyResult :=
  match lookupKey s.instances instance_id with
  | none => (s, DestroyResult.errNotFound)
  | some _ =>
    ({ s with instances := eraseKey s.instances instance_id },
      DestroyResult.ok instance_id)

/-- `ExtensionInstance::SetSendSyncReplyCallback` followed by the delivery of
a sync message: the entry with the sync-reply callback bound to the given
invocation and the message appended to the delivered sync messages. -/
def withSyncCb (e : InstanceEntry) (invocation : Nat) (msg : String) :
    InstanceEntry :=
  { e with syncReplyCb := some invocation,
           receivedSync := e.receivedSync ++ [msg] }

/-- Delivery of an async message to an instance (`HandleMessage`). -/
def withReceived (e : InstanceEntry) (msg : String) : InstanceEntry :=
  { e with received := e.received ++ [msg] }

/-- `ExtensionServer::OnSendSyncMessage`: look the instance up (error if
absent), install the sync-reply callback bound to this invocation, then
deliver the message via `HandleSyncMessage`.  If the handler replies
synchronously the reply is returned through `SyncReplyCallback`; nothing in
the source clears the installed callback afterwards. -/
def OnSendSyncMessage (s : ServerState) (instance_id : Nat) (msg : String)
    (invocation : Nat) : ServerState × SyncResult :=
  match lookupKey s.instances instance_id with
  | none => (s, SyncResult.errNotFound)
  | some e =>
    let e1 := withSyncCb e invocation msg
    let s1 : ServerState :=
      { s with instances := mapInsert s.instances instance_id e1 }
    match e.behavior.onSyncMessage msg with
    | (posts, some r) => (emitAll s1 instance_id posts, SyncResult.replied r)
    | (posts, none) => (emitAll s1 instance_id posts, SyncResult.pending)

/-- `ExtensionServer::OnPostMessage`: fire-and-forget; on an unknown id log
and return with no effect, otherwise deliver the message via
`HandleMessage`. -/
def OnPostMessage (s : ServerState) (instance_id : Nat) (msg : String) :
    ServerState :=
  match lookupKey s.instances instance_id with
  | none => s
  | some e =>
    let e1 := withReceived e msg
    let s1 : ServerState :=
      { s with instances := mapInsert s.instances instance_id e1 }
    emitAll s1 instance_id (e.behavior.onMessage msg)

/-- `ExtensionServer::Start`: connect to the application's DBus endpoint
(failure is fatal and nothing else runs), then register system extensions,
then register the user extension paths that exist, then start the DBus
server and notify the peer.  `connectOk` is the outcome of the external
`ConnectByName` call; `systemModules` are the modules found by the glob over
the system extension directory. -/
def Start (connectOk : Bool) (systemModules : List ExtensionData)
    (paths : List ExtensionData) (s : ServerState) : Bool × ServerState :=
  if connectOk then
    let s1 := registerAll s systemModules
    let s2 := registerAll s1 (paths.filter fun m => m.file_exists)
    (true, { s2 with listening := true, readySent := true })
  else (false, s)

/-- One client-visible operation on a running server. -/
inductive Op where
  | create (extension_name : String)
  | destroy (id : Nat)
  | post (id : Nat) (msg : String)
  | sendSync (id : Nat) (msg : String) (invocation : Nat)

/-- Dispatch one operation (`HandleDBusMethod`), keeping the state. -/
def step (s : ServerState) : Op → ServerState
  | Op.create n => (OnCreateInstance s n).1
  | Op.destroy i => (OnDestroyInstance s i).1
  | Op.post i m => OnPostMessage s i m
  | Op.sendSync i m inv => (OnSendSyncMessage s i m inv).1

/-- Run a sequence of operations. -/
def runOps (s : ServerState) (ops : List Op) : ServerState := ops.foldl step s

/-- Invariant of the instance table: live ids are pairwise distinct and below
the generator counter. -/
def InstInv (s : ServerState) : Prop :=
  (keys s.instances).Nodup ∧ ∀ id ∈ keys s.instances, id < s.nextId

/-- An id that has been retired: it was drawn by the generator (it is below
the counter) and it is not live.  A destroyed id is retired. -/
def deadId (id : Nat) (s : ServerState) : Prop :=
  id < s.nextId ∧ id ∉ keys s.instances

instance (s : ServerState) : Decidable (InstInv s) :=
  decidable_of_iff
    ((keys s.instances).Nodup ∧ ∀ id ∈ keys s.instances, id < s.nextId)
    Iff.rfl

instance (id : Nat) (s : ServerState) : Decidable (deadId id s) :=
  decidable_of_iff (id < s.nextId ∧ id ∉ keys s.instances) Iff.rfl

/-- Two registered modules do not collide: distinct names, and neither name
is among the other's entry points. -/
def ExtDistinct (p q : String × ExtensionData) : Prop :=
  p.1 ≠ q.1 ∧ p.1 ∉ q.2.entry_points ∧ q.1 ∉ p.2.entry_points

/-- Invariant of the registry: module names are pairwise distinct, every
module is keyed by its own name, every registered name and entry point is in
the symbol set, registered modules are pairwise non-colliding, and the
symbol set has no duplicates. -/
def RegInv (s : ServerState) : Prop :=
  (keys s.extensions).Nodup ∧
  (∀ p ∈ s.extensions, p.1 = p.2.name) ∧
  (∀ p ∈ s.extensions, p.1 ∈ s.extension_symbols ∧
    ∀ ep ∈ p.2.entry_points, ep ∈ s.extension_symbols) ∧
  List.Pairwise ExtDistinct s.extensions ∧
  s.extension_symbols.Nodup

theorem lookupKey_eq_none_iff {K V : Type} [DecidableEq K]
    (l : List (K × V)) (k : K) : lookupKey l k = none ↔ k ∉ keys l := by
  induction l with
  | nil => simp [lookupKey, keys]
  | cons p rest ih =>
    by_cases h : p.1 = k
    · simp [lookupKey, keys, h]
    · simp [lookupKey, keys, h, ih, Ne.symm h]

theorem mem_keys_of_lookupKey {K V : Type} [DecidableEq K]
    {l : List (K × V)} {k : K} {v : V} (h : lookupKey l k = some v) :
    k ∈ keys l := by
  by_contra hm
  rw [(lookupKey_eq_none_iff l k).2 hm] at h
  cases h

theorem lookupKey_mapInsert_self {K V : Type} [DecidableEq K]
    (l : List (K × V)) (k : K) (v : V) :
    lookupKey (mapInsert l k v) k = some v := by
  induction l with
  | nil => simp [mapInsert, lookupKey]
  | cons p rest ih =>
    by_cases h : p.1 = k
    · simp [mapInsert, lookupKey, h]
    · simp [mapInsert, lookupKey, h, ih]

theorem lookupKey_mapInsert_ne {K V : Type} [DecidableEq K]
    (l : List (K × V)) (k k' : K) (v : V) (h : k' ≠ k) :
    lookupKey (mapInsert l k v) k' = lookupKey l k' := by
  have hkk : ¬ k = k' := fun he => h he.symm
  induction l with
  | nil => simp [mapInsert, lookupKey, hkk]
  | cons p rest ih =>
    by_cases hp : p.1 = k
    · simp [mapInsert, lookupKey, hp, hkk]
    · simp [mapInsert, lookupKey, hp, ih]

theorem mapInsert_eq_append {K V : Type} [DecidableEq K]
    {l : List (K × V)} {k : K} (v : V) (h : k ∉ keys l) :
    mapInsert l k v = l ++ [(k, v)] := by
  induction l with
  | nil => simp [mapInsert]
  | cons p rest ih =>
    simp only [keys, List.map_cons, List.mem_cons] at h
    push_neg at h
    have hp : ¬ p.1 = k := fun he => h.1 he.symm
    simp [mapInsert, hp, ih (by simpa [keys] using h.2)]

theorem keys_mapInsert_of_mem {K V : Type} [DecidableEq K]
    {l : List (K × V)} {k : K} (v : V) (h : k ∈ keys l) :
    keys (mapInsert l k v) = keys l := by
  induction l with
  | nil => simp [keys] at h
  | cons p rest ih =>
    by_cases hp : p.1 = k
    · simp [mapInsert, keys, hp]
    · have hk : k ∈ keys rest := by
        simp only [keys, List.map_cons, List.mem_cons] at h
        rcases h with h | h
        · exact absurd h.symm hp
        · exact h
      simp only [mapInsert, if_neg hp, keys, List.map_cons]
      exact congrArg (p.1 :: ·) (ih hk)

theorem mem_keys_mapInsert {K V : Type} [DecidableEq K]
    {l : List (K × V)} {k x : K} {v : V}
    (h : x ∈ keys (mapInsert l k v)) : x = k ∨ x ∈ keys l := by
  induction l with
  | nil => simpa [mapInsert, keys] using h
  | cons p rest ih =>
    by_cases hp : p.1 = k
    · rw [show mapInsert (p :: rest) k v = (k, v) :: rest from by
        simp [mapInsert, hp]] at h
      simp only [keys, List.map_cons, List.mem_cons] at h ⊢
      tauto
    · rw [show mapInsert (p :: rest) k v = p :: mapInsert rest k v from by
        simp [mapInsert, hp]] at h
      simp only [keys, List.map_cons, List.mem_cons] at h ⊢
      rcases h with h | h
      · tauto
      · rcases ih h with h' | h' <;> tauto

theorem mem_keys_of_mem_keys_eraseKey {K V : Type} [DecidableEq K]
    {l : List (K × V)} {k x : K} (h : x ∈ keys (eraseKey l k)) :
    x ∈ keys l := by
  induction l with
  | nil => simpa [eraseKey] using h
  | cons p rest ih =>
    by_cases hp : p.1 = k
    · rw [show eraseKey (p :: rest) k = rest from by simp [eraseKey, hp]] at h
      simp only [keys, List.map_cons, List.mem_cons]
      exact Or.inr h
    · rw [show eraseKey (p :: rest) k = p :: eraseKey rest k from by
        simp [eraseKey, hp]] at h
      simp only [keys, List.map_cons, List.mem_cons] at h ⊢
      rcases h with h | h
      · exact Or.inl h
      · exact Or.inr (ih h)

theorem nodup_keys_eraseKey {K V : Type} [DecidableEq K]
    {l : List (K × V)} (k : K) (h : (keys l).Nodup) :
    (keys (eraseKey l k)).Nodup := by
  induction l with
  | nil => simp [eraseKey, keys]
  | cons p rest ih =>
    simp only [keys, List.map_cons, List.nodup_cons] at h
    by_cases hp : p.1 = k
    · rw [show eraseKey (p :: rest) k = rest from by simp [eraseKey, hp]]
      exact h.2
    · rw [show eraseKey (p :: rest) k = p :: eraseKey rest k from by
        simp [eraseKey, hp]]
      simp only [keys, List.map_cons, List.nodup_cons]
      exact ⟨fun hm => h.1 (mem_keys_of_mem_keys_eraseKey hm), ih h.2⟩

theorem not_mem_keys_eraseKey {K V : Type} [DecidableEq K]
    {l : List (K × V)} (k : K) (h : (keys l).Nodup) :
    k ∉ keys (eraseKey l k) := by
  induction l with
  | nil => simp [eraseKey, keys]
  | cons p rest ih =>
    simp only [keys, List.map_cons, List.nodup_cons] at h
    by_cases hp : p.1 = k
    · rw [show eraseKey (p :: rest) k = rest from by simp [eraseKey, hp]]
      exact fun hm => h.1 (by simpa [keys, hp] using hm)
    · rw [show eraseKey (p :: rest) k = p :: eraseKey rest k from by
        simp [eraseKey, hp]]
      simp only [keys, List.map_cons, List.mem_cons]
      push_neg
      exact ⟨fun he => hp he.symm, ih h.2⟩

theorem lookupKey_eraseKey_self {K V : Type} [DecidableEq K]
    {l : List (K × V)} (k : K) (h : (keys l).Nodup) :
    lookupKey (eraseKey l k) k = none :=
  (lookupKey_eq_none_iff _ _).2 (not_mem_keys_eraseKey k h)

theorem mem_setInsert (l : List String) (x y : String) :
    x ∈ setInsert l y ↔ x = y ∨ x ∈ l := by
  unfold setInsert
  by_cases h : y ∈ l
  · simp only [if_pos h]
    constructor
    · exact fun hx => Or.inr hx
    · rintro (rfl | hx)
      · exact h
      · exact hx
  · simp [if_neg h, List.mem_cons]

theorem nodup_setInsert (l : List String) (y : String) (h : l.Nodup) :
    (setInsert l y).Nodup := by
  unfold setInsert
  by_cases hy : y ∈ l
  · simpa [if_pos hy] using h
  · simpa [if_neg hy, List.nodup_cons] using ⟨hy, h⟩

theorem mem_foldl_setInsert (eps : List String) (l : List String)
    (x : String) : x ∈ eps.foldl setInsert l ↔ x ∈ l ∨ x ∈ eps := by
  induction eps generalizing l with
  | nil => simp
  | cons e eps ih =>
    simp only [List.foldl_cons, ih, mem_setInsert, List.mem_cons]
    tauto

theorem nodup_foldl_setInsert (eps : List String) (l : List String)
    (h : l.Nodup) : (eps.foldl setInsert l).Nodup := by
  induction eps generalizing l with
  | nil => simpa
  | cons e eps ih => exact ih _ (nodup_setInsert l e h)

theorem emitAll_eq (msgs : List String) (s : ServerState) (i : Nat) :
    ∃ sig, emitAll s i msgs = { s with signals := sig } := by
  induction msgs generalizing s with
  | nil => exact ⟨s.signals, rfl⟩
  | cons m ms ih =>
    have hstep : ∃ sig1, PostMessageToJSCallback s i m
        = { s with signals := sig1 } := by
      unfold PostMessageToJSCallback
      split
      · exact ⟨s.signals ++ [(i, m)], rfl⟩
      · exact ⟨s.signals, rfl⟩
    obtain ⟨sig1, h1⟩ := hstep
    obtain ⟨sig2, h2⟩ := ih { s with signals := sig1 }
    refine ⟨sig2, ?_⟩
    show emitAll (PostMessageToJSCallback s i m) i ms = _
    rw [h1, h2]

theorem emitAll_instances (msgs : List String) (s : ServerState) (i : Nat) :
    (emitAll s i msgs).instances = s.instances := by
  obtain ⟨sig, h⟩ := emitAll_eq msgs s i
  rw [h]

theorem emitAll_nextId (msgs : List String) (s : ServerState) (i : Nat) :
    (emitAll s i msgs).nextId = s.nextId := by
  obtain ⟨sig, h⟩ := emitAll_eq msgs s i
  rw [h]

theorem registerSymbols_fst_iff (symbols : List String) (m : ExtensionData) :
    (RegisterSymbols symbols m).fst = true ↔
      (m.name ∉ symbols ∧ ∀ ep ∈ m.entry_points, ep ∉ symbols) := by
  unfold RegisterSymbols
  by_cases h1 : m.name ∈ symbols
  · simp [h1]
  · by_cases h2 : ∃ ep ∈ m.entry_points, ep ∈ symbols
    · simp only [if_neg h1, if_pos h2]
      constructor
      · intro hfalse
        cases hfalse
      · rintro ⟨-, hall⟩
        obtain ⟨ep, hmem, hin⟩ := h2
        exact absurd hin (hall ep hmem)
    · simp only [if_neg h1, if_neg h2]
      push_neg at h2
      refine iff_of_true ?_ ⟨h1, h2⟩
      simp

theorem registerSymbols_snd_of_fst (symbols : List String) (m : ExtensionData)
    (h : (RegisterSymbols symbols m).fst = true) :
    (RegisterSymbols symbols m).snd
      = setInsert (m.entry_points.foldl setInsert symbols) m.name := by
  unfold RegisterSymbols at *
  by_cases h1 : m.name ∈ symbols
  · simp [h1] at h
  · by_cases h2 : ∃ ep ∈ m.entry_points, ep ∈ symbols
    · simp [h1, h2] at h
    · simp [h1, h2]

theorem registerExtension_eq_of_fst_false (s : ServerState)
    (m : ExtensionData) (h : (RegisterSymbols s.extension_symbols m).fst = false) :
    RegisterExtension s m = s := by
  unfold RegisterExtension
  simp [h]

theorem registerExtension_eq_of_collision (s : ServerState)
    (m : ExtensionData)
    (h : m.name ∈ s.extension_symbols ∨
      ∃ ep ∈ m.entry_points, ep ∈ s.extension_symbols) :
    RegisterExtension s m = s := by
  apply registerExtension_eq_of_fst_false
  rw [Bool.eq_false_iff]
  intro hok
  obtain ⟨hname, hall⟩ := (registerSymbols_fst_iff s.extension_symbols m).1 hok
  rcases h with h | ⟨ep, hmem, hin⟩
  · exact hname h
  · exact hall ep hmem hin

theorem mem_symbols_of_mem_keys {s : ServerState} (h : RegInv s) {x : String}
    (hx : x ∈ keys s.extensions) : x ∈ s.extension_symbols := by
  simp only [keys, List.mem_map] at hx
  obtain ⟨p, hp, rfl⟩ := hx
  exact (h.2.2.1 p hp).1

theorem symbols_subset_registerSymbols (symbols : List String)
    (m : ExtensionData) (h : (RegisterSymbols symbols m).fst = true)
    {x : String} (hx : x ∈ symbols) :
    x ∈ (RegisterSymbols symbols m).snd := by
  rw [registerSymbols_snd_of_fst symbols m h, mem_setInsert,
    mem_foldl_setInsert]
  tauto

theorem regInv_registerExtension (s : ServerState) (m : ExtensionData)
    (h : RegInv s) : RegInv (RegisterExtension s m) := by
  unfold RegisterExtension
  by_cases hio : m.init_ok
  · by_cases hok : (RegisterSymbols s.extension_symbols m).fst = true
    · simp only [hio, hok, Bool.and_self, if_pos, Bool.true_and, if_true]
      obtain ⟨hname, heps⟩ := (registerSymbols_fst_iff s.extension_symbols m).1 hok
      have hsnd := registerSymbols_snd_of_fst s.extension_symbols m hok
      have hnk : m.name ∉ keys s.extensions :=
        fun hm => hname (mem_symbols_of_mem_keys h hm)
      have happ := mapInsert_eq_append (l := s.extensions) m hnk
      have hmemsnd : ∀ x, x ∈ (RegisterSymbols s.extension_symbols m).snd ↔
          (x = m.name ∨ x ∈ m.entry_points ∨ x ∈ s.extension_symbols) := by
        intro x
        rw [hsnd, mem_setInsert, mem_foldl_setInsert]
        tauto
      refine ⟨?_, ?_, ?_, ?_, ?_⟩
      · show (keys (mapInsert s.extensions m.name m)).Nodup
        rw [happ]
        simp only [keys, List.map_append, List.map_cons, List.map_nil,
          List.nodup_append]
        refine ⟨h.1, List.nodup_singleton _, ?_⟩
        intro a ha
        simp only [List.mem_singleton]
        intro hb
        rw [hb] at ha
        exact hnk ha
      · intro p hp
        rw [happ] at hp
        rcases List.mem_append.1 hp with hp | hp
        · exact h.2.1 p hp
        · simp only [List.mem_singleton] at hp
          rw [hp]
      · intro p hp
        rw [happ] at hp
        rcases List.mem_append.1 hp with hp | hp
        · obtain ⟨hp1, hp2⟩ := h.2.2.1 p hp
          exact ⟨(hmemsnd p.1).2 (Or.inr (Or.inr hp1)),
            fun ep hep => (hmemsnd ep).2 (Or.inr (Or.inr (hp2 ep hep)))⟩
        · simp only [List.mem_singleton] at hp
          rw [hp]
          exact ⟨(hmemsnd m.name).2 (Or.inl rfl),
            fun ep hep => (hmemsnd ep).2 (Or.inr (Or.inl hep))⟩
      · rw [happ]
        rw [List.pairwise_append]
        refine ⟨h.2.2.2.1, List.pairwise_singleton _ _, ?_⟩
        intro p hp q hq
        simp only [List.mem_singleton] at hq
        subst hq
        have hp1 : p.1 ∈ s.extension_symbols := (h.2.2.1 p hp).1
        have hp2 : ∀ ep ∈ p.2.entry_points, ep ∈ s.extension_symbols :=
          (h.2.2.1 p hp).2
        refine ⟨?_, ?_, ?_⟩
        · show p.1 ≠ m.name
          exact fun he => hname (he ▸ hp1)
        · show p.1 ∉ m.entry_points
          intro hmem
          exact heps p.1 hmem hp1
        · show m.name ∉ p.2.entry_points
          intro hmem
          exact hname (hp2 m.name hmem)
      · rw [hsnd]
        exact nodup_setInsert _ _
          (nodup_foldl_setInsert m.entry_points s.extension_symbols h.2.2.2.2)
    · simp only [Bool.not_eq_true] at hok
      simp [hok]
      exact h
  · simp only [Bool.not_eq_true] at hio
    simp [hio]
    exact h

theorem lookup_ext_registerExtension (s : ServerState) (m : ExtensionData)
    (A : String) (e : ExtensionData) (h : RegInv s)
    (hl : lookupKey s.extensions A = some e) :
    lookupKey (RegisterExtension s m).extensions A = some e := by
  unfold RegisterExtension
  by_cases hc : (m.init_ok && (RegisterSymbols s.extension_symbols m).fst) = true
  · simp only [hc, if_true]
    have hok : (RegisterSymbols s.extension_symbols m).fst = true := by
      simp only [Bool.and_eq_true] at hc
      exact hc.2
    have hname : m.name ∉ s.extension_symbols :=
      ((registerSymbols_fst_iff s.extension_symbols m).1 hok).1
    have hA : A ∈ s.extension_symbols :=
      mem_symbols_of_mem_keys h (mem_keys_of_lookupKey hl)
    have hne : A ≠ m.name := fun he => hname (he ▸ hA)
    rw [lookupKey_mapInsert_ne s.extensions m.name A m hne]
    exact hl
  · simp only [hc, if_false]
    exact hl

theorem regInv_registerAll (mods : List ExtensionData) (s : ServerState)
    (h : RegInv s) : RegInv (registerAll s mods) := by
  induction mods generalizing s with
  | nil => exact h
  | cons m mods ih => exact ih _ (regInv_registerExtension s m h)

theorem lookup_ext_registerAll (mods : List ExtensionData) (s : ServerState)
    (A : String) (e : ExtensionData) (h : RegInv s)
    (hl : lookupKey s.extensions A = some e) :
    lookupKey (registerAll s mods).extensions A = some e := by
  induction mods generalizing s with
  | nil => exact hl
  | cons m mods ih =>
    exact ih _ (regInv_registerExtension s m h)
      (lookup_ext_registerExtension s m A e h hl)

theorem regInv_initState : RegInv initState := by
  refine ⟨?_, ?_, ?_, ?_, ?_⟩ <;> simp [initState, keys, RegInv]

theorem onCreateInstance_none (s : ServerState) (n : String)
    (h : lookupKey s.extensions n = none) :
    OnCreateInstance s n
      = ({ s with nextId := s.nextId + 1 }, CreateResult.errNotFound) := by
  unfold OnCreateInstance
  simp [h]

theorem onCreateInstance_factory_none (s : ServerState) (n : String)
    (ext : ExtensionData) (h : lookupKey s.extensions n = some ext)
    (hf : ext.factory = none) :
    OnCreateInstance s n
      = ({ s with nextId := s.nextId + 1 }, CreateResult.errCreateFailed) := by
  unfold OnCreateInstance
  simp [h, hf]

theorem onCreateInstance_factory_some (s : ServerState) (n : String)
    (ext : ExtensionData) (beh : InstBehavior)
    (h : lookupKey s.extensions n = some ext) (hf : ext.factory = some beh) :
    OnCreateInstance s n
      = ({ s with nextId := s.nextId + 1, instances := mapInsert s.instances s.nextId (InstanceEntry.mk beh [] [] none) },
          CreateResult.ok s.nextId) := by
  unfold OnCreateInstance
  simp [h, hf]

theorem onDestroy_none (s : ServerState) (id : Nat)
    (h : lookupKey s.instances id = none) :
    OnDestroyInstance s id = (s, DestroyResult.errNotFound) := by
  unfold OnDestroyInstance
  simp [h]

theorem onDestroy_some (s : ServerState) (id : Nat) (e : InstanceEntry)
    (h : lookupKey s.instances id = some e) :
    OnDestroyInstance s id
      = ({ s with instances := eraseKey s.instances id },
          DestroyResult.ok id) := by
  unfold OnDestroyInstance
  simp [h]

theorem onSendSync_none (s : ServerState) (id : Nat) (m : String) (inv : Nat)
    (h : lookupKey s.instances id = none) :
    OnSendSyncMessage s id m inv = (s, SyncResult.errNotFound) := by
  unfold OnSendSyncMessage
  simp [h]

theorem onSendSync_replied (s : ServerState) (id : Nat) (m : String)
    (inv : Nat) (e : InstanceEntry) (posts : List String) (r : String)
    (h : lookupKey s.instances id = some e)
    (hb : e.behavior.onSyncMessage m = (posts, some r)) :
    OnSendSyncMessage s id m inv
      = (emitAll { s with instances := mapInsert s.instances id (withSyncCb e inv m) } id posts,
          SyncResult.replied r) := by
  unfold OnSendSyncMessage
  simp [h, hb]

theorem onSendSync_pending (s : ServerState) (id : Nat) (m : String)
    (inv : Nat) (e : InstanceEntry) (posts : List String)
    (h : lookupKey s.instances id = some e)
    (hb : e.behavior.onSyncMessage m = (posts, none)) :
    OnSendSyncMessage s id m inv
      = (emitAll { s with instances := mapInsert s.instances id (withSyncCb e inv m) } id posts,
          SyncResult.pending) := by
  unfold OnSendSyncMessage
  simp [h, hb]

theorem onPost_none (s : ServerState) (id : Nat) (m : String)
    (h : lookupKey s.instances id = none) :
    OnPostMessage s id m = s := by
  unfold OnPostMessage
  simp [h]

theorem onPost_some (s : ServerState) (id : Nat) (m : String)
    (e : InstanceEntry) (h : lookupKey s.instances id = some e) :
    OnPostMessage s id m
      = emitAll { s with instances := mapInsert s.instances id (withReceived e m) } id
          (e.behavior.onMessage m) := by
  unfold OnPostMessage
  simp [h]

theorem instInv_emitAll (s : ServerState) (i : Nat) (msgs : List String)
    (h : InstInv s) : InstInv (emitAll s i msgs) := by
  obtain ⟨sig, he⟩ := emitAll_eq msgs s i
  rw [he]
  exact h

theorem deadId_emitAll (s : ServerState) (i : Nat) (msgs : List String)
    (id : Nat) (h : deadId id s) : deadId id (emitAll s i msgs) := by
  obtain ⟨sig, he⟩ := emitAll_eq msgs s i
  rw [he]
  exact h

theorem nextId_not_mem_keys (s : ServerState) (h : InstInv s) :
    s.nextId ∉ keys s.instances :=
  fun hm => Nat.lt_irrefl _ (h.2 _ hm)

theorem instInv_mapInsert_existing (s : ServerState) (id : Nat)
    (e : InstanceEntry) (v : InstanceEntry) (h : InstInv s)
    (hl : lookupKey s.instances id = some e) :
    InstInv { s with instances := mapInsert s.instances id v } := by
  have hk := keys_mapInsert_of_mem (l := s.instances) v (mem_keys_of_lookupKey hl)
  constructor
  · show (keys (mapInsert s.instances id v)).Nodup
    rw [hk]
    exact h.1
  · intro x hx
    show x < s.nextId
    have hx2 : x ∈ keys (mapInsert s.instances id v) := hx
    rw [hk] at hx2
    exact h.2 x hx2

theorem instInv_onCreate (s : ServerState) (n : String) (h : InstInv s) :
    InstInv (OnCreateInstance s n).1 := by
  cases hl : lookupKey s.extensions n with
  | none =>
    rw [onCreateInstance_none s n hl]
    exact ⟨h.1, fun id hid => Nat.lt_succ_of_lt (h.2 id hid)⟩
  | some ext =>
    cases hf : ext.factory with
    | none =>
      rw [onCreateInstance_factory_none s n ext hl hf]
      exact ⟨h.1, fun id hid => Nat.lt_succ_of_lt (h.2 id hid)⟩
    | some beh =>
      rw [onCreateInstance_factory_some s n ext beh hl hf]
      have hfresh := nextId_not_mem_keys s h
      have happ := mapInsert_eq_append (l := s.instances)
        (InstanceEntry.mk beh [] [] none) hfresh
      constructor
      · show (keys (mapInsert s.instances s.nextId
          (InstanceEntry.mk beh [] [] none))).Nodup
        rw [happ]
        simp only [keys, List.map_append, List.map_cons, List.map_nil,
          List.nodup_append]
        refine ⟨h.1, List.nodup_singleton _, ?_⟩
        intro a ha
        simp only [List.mem_singleton]
        intro hb
        rw [hb] at ha
        exact hfresh ha
      · intro id hid
        show id < s.nextId + 1
        have hid2 : id ∈ keys (mapInsert s.instances s.nextId
          (InstanceEntry.mk beh [] [] none)) := hid
        rcases mem_keys_mapInsert hid2 with he | hm
        · rw [he]
          exact Nat.lt_succ_self _
        · exact Nat.lt_succ_of_lt (h.2 id hm)

theorem instInv_onDestroy (s : ServerState) (id0 : Nat) (h : InstInv s) :
    InstInv (OnDestroyInstance s id0).1 := by
  cases hl : lookupKey s.instances id0 with
  | none =>
    rw [onDestroy_none s id0 hl]
    exact h
  | some e =>
    rw [onDestroy_some s id0 e hl]
    exact ⟨nodup_keys_eraseKey id0 h.1,
      fun id hid => h.2 id (mem_keys_of_mem_keys_eraseKey hid)⟩

theorem instInv_onPost (s : ServerState) (id0 : Nat) (m : String)
    (h : InstInv s) : InstInv (OnPostMessage s id0 m) := by
  cases hl : lookupKey s.instances id0 with
  | none =>
    rw [onPost_none s id0 m hl]
    exact h
  | some e =>
    rw [onPost_some s id0 m e hl]
    exact instInv_emitAll _ _ _ (instInv_mapInsert_existing s id0 e _ h hl)

theorem instInv_onSendSync (s : ServerState) (id0 : Nat) (m : String)
    (inv : Nat) (h : InstInv s) : InstInv (OnSendSyncMessage s id0 m inv).1 := by
  cases hl : lookupKey s.instances id0 with
  | none =>
    rw [onSendSync_none s id0 m inv hl]
    exact h
  | some e =>
    cases hb : e.behavior.onSyncMessage m with
    | mk posts rep =>
      cases rep with
      | none =>
        rw [onSendSync_pending s id0 m inv e posts hl hb]
        exact instInv_emitAll _ _ _ (instInv_mapInsert_existing s id0 e _ h hl)
      | some r =>
        rw [onSendSync_replied s id0 m inv e posts r hl hb]
        exact instInv_emitAll _ _ _ (instInv_mapInsert_existing s id0 e _ h hl)

theorem deadId_mapInsert_existing (s : ServerState) (id0 id : Nat)
    (v : InstanceEntry) (h : deadId id s) (hm : id0 ∈ keys s.instances) :
    deadId id { s with instances := mapInsert s.instances id0 v } := by
  refine ⟨h.1, ?_⟩
  intro hx
  have hx2 : id ∈ keys (mapInsert s.instances id0 v) := hx
  rcases mem_keys_mapInsert hx2 with he | hmem
  · rw [he] at h
    exact h.2 hm
  · exact h.2 hmem

theorem deadId_onCreate (s : ServerState) (n : String) (id : Nat)
    (h : deadId id s) : deadId id (OnCreateInstance s n).1 := by
  cases hl : lookupKey s.extensions n with
  | none =>
    rw [onCreateInstance_none s n hl]
    exact ⟨Nat.lt_succ_of_lt h.1, h.2⟩
  | some ext =>
    cases hf : ext.factory with
    | none =>
      rw [onCreateInstance_factory_none s n ext hl hf]
      exact ⟨Nat.lt_succ_of_lt h.1, h.2⟩
    | some beh =>
      rw [onCreateInstance_factory_some s n ext beh hl hf]
      refine ⟨Nat.lt_succ_of_lt h.1, ?_⟩
      intro hx
      have hx2 : id ∈ keys (mapInsert s.instances s.nextId
        (InstanceEntry.mk beh [] [] none)) := hx
      rcases mem_keys_mapInsert hx2 with he | hmem
      · rw [he] at h
        exact Nat.lt_irrefl _ h.1
      · exact h.2 hmem

theorem deadId_onDestroy (s : ServerState) (id0 id : Nat)
    (h : deadId id s) : deadId id (OnDestroyInstance s id0).1 := by
  cases hl : lookupKey s.instances id0 with
  | none =>
    rw [onDestroy_none s id0 hl]
    exact h
  | some e =>
    rw [onDestroy_some s id0 e hl]
    exact ⟨h.1, fun hx => h.2 (mem_keys_of_mem_keys_eraseKey hx)⟩

theorem deadId_onPost (s : ServerState) (id0 id : Nat) (m : String)
    (h : deadId id s) : deadId id (OnPostMessage s id0 m) := by
  cases hl : lookupKey s.instances id0 with
  | none =>
    rw [onPost_none s id0 m hl]
    exact h
  | some e =>
    rw [onPost_some s id0 m e hl]
    exact deadId_emitAll _ id0 (e.behavior.onMessage m) id
      (deadId_mapInsert_existing s id0 id (withReceived e m) h
        (mem_keys_of_lookupKey hl))

theorem deadId_onSendSync (s : ServerState) (id0 id : Nat) (m : String)
    (inv : Nat) (h : deadId id s) :
    deadId id (OnSendSyncMessage s id0 m inv).1 := by
  cases hl : lookupKey s.instances id0 with
  | none =>
    rw [onSendSync_none s id0 m inv hl]
    exact h
  | some e =>
    cases hb : e.behavior.onSyncMessage m with
    | mk posts rep =>
      cases rep with
      | none =>
        rw [onSendSync_pending s id0 m inv e posts hl hb]
        exact deadId_emitAll _ id0 posts id
          (deadId_mapInsert_existing s id0 id (withSyncCb e inv m) h
            (mem_keys_of_lookupKey hl))
      | some r =>
        rw [onSendSync_replied s id0 m inv e posts r hl hb]
        exact deadId_emitAll _ id0 posts id
          (deadId_mapInsert_existing s id0 id (withSyncCb e inv m) h
            (mem_keys_of_lookupKey hl))

theorem instInv_step (s : ServerState) (op : Op) (h : InstInv s) :
    InstInv (step s op) := by
  cases op with
  | create n => exact instInv_onCreate s n h
  | destroy i => exact instInv_onDestroy s i h
  | post i m => exact instInv_onPost s i m h
  | sendSync i m inv => exact instInv_onSendSync s i m inv h

theorem deadId_step (s : ServerState) (op : Op) (id : Nat) (h : deadId id s) :
    deadId id (step s op) := by
  cases op with
  | create n => exact deadId_onCreate s n id h
  | destroy i => exact deadId_onDestroy s i id h
  | post i m => exact deadId_onPost s i id m h
  | sendSync i m inv => exact deadId_onSendSync s i id m inv h

theorem instInv_runOps (ops : List Op) (s : ServerState) (h : InstInv s) :
    InstInv (runOps s ops) := by
  induction ops generalizing s with
  | nil => exact h
  | cons op ops ih => exact ih _ (instInv_step s op h)

theorem deadId_runOps (ops : List Op) (s : ServerState) (id : Nat)
    (h : deadId id s) : deadId id (runOps s ops) := by
  induction ops generalizing s with
  | nil => exact h
  | cons op ops ih => exact ih _ (deadId_step s op id h)

theorem lookup_none_of_deadId (s : ServerState) (id : Nat)
    (h : deadId id s) : lookupKey s.instances id = none :=
  (lookupKey_eq_none_iff _ _).2 h.2

theorem registerSymbols_snd_of_not_fst (symbols : List String)
    (m : ExtensionData) (h : (RegisterSymbols symbols m).fst ≠ true) :
    (RegisterSymbols symbols m).snd = symbols := by
  unfold RegisterSymbols at *
  by_cases h1 : m.name ∈ symbols
  · simp [h1]
  · by_cases h2 : ∃ ep ∈ m.entry_points, ep ∈ symbols
    · simp [h1, h2]
    · exact absurd (by simp [h1, h2]) h

/-- A concrete instance behaviour for the closed checks: it pushes nothing
and replies "pong" to every sync message. -/
def pongBehavior : InstBehavior :=
  InstBehavior.mk (fun _ => []) (fun _ => ([], some "pong"))

/-- A concrete module named "geo" whose factory produces `pongBehavior`. -/
def geoModule : ExtensionData :=
  ExtensionData.mk "geo" "geo-api" ["geo.locate"] true true (some pongBehavior)

/-- A concrete module without a working factory. -/
def noFactoryModule : ExtensionData :=
  ExtensionData.mk "bad" "bad-api" [] true true none

/-- A concrete system-directory module named "A". -/
def sysAModule : ExtensionData :=
  ExtensionData.mk "A" "sys-api" ["A.x"] true true none

/-- A concrete extra-path module also named "A". -/
def userAModule : ExtensionData :=
  ExtensionData.mk "A" "user-api" [] true true none

/-- A module whose entry-point list repeats its own name and an entry
point. -/
def selfNamedModule : ExtensionData :=
  ExtensionData.mk "geo" "geo-api" ["geo", "geo.locate", "geo.locate"]
    true true none

/-- A concrete server state with the "geo" and "bad" modules registered and
no live instance. -/
def wServer : ServerState :=
  { extensions := [("geo", geoModule), ("bad", noFactoryModule)],
    extension_symbols := ["geo.locate", "geo", "bad"],
    instances := [], nextId := 0, signals := [], connOpen := true,
    listening := false, readySent := false }

/-- The entry of the single live instance of `wLive`. -/
def wEntry : InstanceEntry := InstanceEntry.mk pongBehavior [] [] none

/-- A concrete server state with one live instance (id 0) running
`pongBehavior`. -/
def wLive : ServerState :=
  { extensions := [], extension_symbols := [],
    instances := [(0, wEntry)], nextId := 1, signals := [],
    connOpen := true, listening := false, readySent := false }

/-- Claim C1: registry admission is atomic and preserves namespace
uniqueness.  After any sequence of module admissions starting from the
initial state, no two registered modules share a name and no identifier is
one module's name and another module's name or entry point
(`List.Pairwise ExtDistinct`); and admitting a module whose name or any
entry point is already in the registry's namespace leaves the registry state
(module table and symbol set) completely unchanged. -/
theorem registry_admission_atomic_unique (mods : List ExtensionData)
    (m : ExtensionData) :
    List.Pairwise ExtDistinct (registerAll initState mods).extensions ∧
    ((m.name ∈ (registerAll initState mods).extension_symbols ∨
        ∃ ep ∈ m.entry_points,
          ep ∈ (registerAll initState mods).extension_symbols) →
      RegisterExtension (registerAll initState mods) m
        = registerAll initState mods) := by
  have hinv := regInv_registerAll mods initState regInv_initState
  exact ⟨hinv.2.2.2.1,
    fun hcol => registerExtension_eq_of_collision _ m hcol⟩

theorem registry_admission_atomic_unique_witness :
    RegisterExtension (registerAll initState [sysAModule]) userAModule
      = registerAll initState [sysAModule] :=
  (registry_admission_atomic_unique [sysAModule] userAModule).2
    (Or.inl (by decide))

/-- Claim C2: `OnCreateInstance` on an unregistered name fails with the
not-found error; on a registered name whose factory fails it fails with the
create-failed error; on success it returns a fresh instance id (not shared
with any live instance) and records the instance; on either failure the
instance table is unchanged and the id drawn by the generator is dead (it is
never recorded, so no id leaks). -/
theorem create_instance_spec (s : ServerState) (n : String) (h : InstInv s) :
    (lookupKey s.extensions n = none →
      (OnCreateInstance s n).2 = CreateResult.errNotFound ∧
      (OnCreateInstance s n).1.instances = s.instances ∧
      deadId s.nextId (OnCreateInstance s n).1) ∧
    (∀ ext, lookupKey s.extensions n = some ext → ext.factory = none →
      (OnCreateInstance s n).2 = CreateResult.errCreateFailed ∧
      (OnCreateInstance s n).1.instances = s.instances ∧
      deadId s.nextId (OnCreateInstance s n).1) ∧
    (∀ ext beh, lookupKey s.extensions n = some ext →
      ext.factory = some beh →
      (OnCreateInstance s n).2 = CreateResult.ok s.nextId ∧
      s.nextId ∉ keys s.instances ∧
      (OnCreateInstance s n).1.instances
        = mapInsert s.instances s.nextId (InstanceEntry.mk beh [] [] none)) := by
  refine ⟨?_, ?_, ?_⟩
  · intro hl
    rw [onCreateInstance_none s n hl]
    exact ⟨rfl, rfl, Nat.lt_succ_self _, nextId_not_mem_keys s h⟩
  · intro ext hl hf
    rw [onCreateInstance_factory_none s n ext hl hf]
    exact ⟨rfl, rfl, Nat.lt_succ_self _, nextId_not_mem_keys s h⟩
  · intro ext beh hl hf
    rw [onCreateInstance_factory_some s n ext beh hl hf]
    exact ⟨rfl, nextId_not_mem_keys s h, rfl⟩

theorem create_instance_spec_witness :
    InstInv wServer ∧
    ((OnCreateInstance wServer "nope").2 = CreateResult.errNotFound ∧
     (OnCreateInstance wServer "nope").1.instances = wServer.instances ∧
     deadId wServer.nextId (OnCreateInstance wServer "nope").1) :=
  ⟨by decide, (create_instance_spec wServer "nope" (by decide)).1 rfl⟩

/-- Claim C3: `OnSendSyncMessage` on a live instance whose handler pushes
nothing and replies synchronously with `r` returns exactly `r`, and that
call alone emits no `OnMessageToJS` signal; on an id that is not live it
fails with the not-found error and leaves the state unchanged. -/
theorem send_sync_roundtrip (s : ServerState) (id : Nat) (m r : String)
    (inv : Nat) :
    (lookupKey s.instances id = none →
      OnSendSyncMessage s id m inv = (s, SyncResult.errNotFound)) ∧
    (∀ e, lookupKey s.instances id = some e →
      e.behavior.onSyncMessage m = ([], some r) →
      (OnSendSyncMessage s id m inv).2 = SyncResult.replied r ∧
      (OnSendSyncMessage s id m inv).1.signals = s.signals) := by
  refine ⟨fun hl => onSendSync_none s id m inv hl, ?_⟩
  intro e hl hb
  rw [onSendSync_replied s id m inv e [] r hl hb]
  exact ⟨rfl, rfl⟩

theorem send_sync_roundtrip_witness :
    ((OnSendSyncMessage wLive 0 "ping" 5).2 = SyncResult.replied "pong" ∧
     (OnSendSyncMessage wLive 0 "ping" 5).1.signals = wLive.signals) :=
  (send_sync_roundtrip wLive 0 "ping" "pong" 5).2 wEntry rfl rfl

/-- Claim C4: for every sequence of operations from a state satisfying the
instance-table invariant, no two live instances share an id (the key list
stays duplicate-free); and an id that is dead (destroyed or otherwise
retired by the generator) stays dead under every further operation sequence,
with a subsequent `DestroyInstance` or `SendSyncMessage` on it rejected
not-found and a subsequent `PostMessage` on it a silent no-op.  The id
generator is the counter `nextId`, which never returns a previously issued
id. -/
theorem instance_id_safety (s0 : ServerState) (h0 : InstInv s0)
    (ops ops2 : List Op) (id inv : Nat) (m : String) :
    InstInv (runOps s0 ops) ∧
    (deadId id (runOps s0 ops) →
      deadId id (runOps (runOps s0 ops) ops2) ∧
      (OnDestroyInstance (runOps (runOps s0 ops) ops2) id).2
        = DestroyResult.errNotFound ∧
      (OnSendSyncMessage (runOps (runOps s0 ops) ops2) id m inv).2
        = SyncResult.errNotFound ∧
      OnPostMessage (runOps (runOps s0 ops) ops2) id m
        = runOps (runOps s0 ops) ops2) := by
  refine ⟨instInv_runOps ops s0 h0, ?_⟩
  intro hdead
  have hd2 := deadId_runOps ops2 _ id hdead
  have hln := lookup_none_of_deadId _ id hd2
  refine ⟨hd2, ?_, ?_, ?_⟩
  · rw [onDestroy_none _ id hln]
  · rw [onSendSync_none _ id m inv hln]
  · exact onPost_none _ id m hln

theorem instance_id_safety_witness :
    InstInv wServer ∧
    deadId 0 (runOps wServer [Op.create "geo", Op.destroy 0]) ∧
    (deadId 0 (runOps (runOps wServer [Op.create "geo", Op.destroy 0]) [Op.create "geo"]) ∧
     (OnDestroyInstance (runOps (runOps wServer [Op.create "geo", Op.destroy 0]) [Op.create "geo"]) 0).2 = DestroyResult.errNotFound ∧
     (OnSendSyncMessage (runOps (runOps wServer [Op.create "geo", Op.destroy 0]) [Op.create "geo"]) 0 "x" 9).2 = SyncResult.errNotFound ∧
     OnPostMessage (runOps (runOps wServer [Op.create "geo", Op.destroy 0]) [Op.create "geo"]) 0 "x"
       = runOps (runOps wServer [Op.create "geo", Op.destroy 0]) [Op.create "geo"]) :=
  ⟨by decide, by decide,
    (instance_id_safety wServer (by decide) [Op.create "geo", Op.destroy 0]
      [Op.create "geo"] 0 9 "x").2 (by decide)⟩

/-- Claim C5: discovery order gives system extensions precedence: `Start`
registers system-directory modules before caller-supplied extra-path
modules, so a name registered during the system phase still maps to the same
system module after the whole of `Start`, and the final module table has no
duplicate names (the like-named extra-path module was rejected). -/
theorem discovery_order_precedence (sys paths : List ExtensionData)
    (A : String) (e : ExtensionData)
    (h : lookupKey (registerAll initState sys).extensions A = some e) :
    lookupKey (Start true sys paths initState).2.extensions A = some e ∧
    (keys (Start true sys paths initState).2.extensions).Nodup := by
  have hinv := regInv_registerAll sys initState regInv_initState
  have hl2 := lookup_ext_registerAll (paths.filter fun m => m.file_exists)
    _ A e hinv h
  have hinv2 := regInv_registerAll (paths.filter fun m => m.file_exists)
    _ hinv
  exact ⟨hl2, hinv2.1⟩

theorem discovery_order_precedence_witness :
    (lookupKey (Start true [sysAModule] [userAModule] initState).2.extensions "A" = some sysAModule ∧
     (keys (Start true [sysAModule] [userAModule] initState).2.extensions).Nodup) :=
  discovery_order_precedence [sysAModule] [userAModule] "A" sysAModule rfl

/-- Claim C6: `OnDestroyInstance` on a live id removes the instance from the
table (its teardown: the entry is released and its id no longer resolves)
and returns the same id as confirmation; on an unknown id it returns the
not-found error and leaves the state unchanged. -/
theorem destroy_instance_spec (s : ServerState) (id : Nat) (h : InstInv s) :
    (lookupKey s.instances id = none →
      OnDestroyInstance s id = (s, DestroyResult.errNotFound)) ∧
    (∀ e, lookupKey s.instances id = some e →
      (OnDestroyInstance s id).2 = DestroyResult.ok id ∧
      (OnDestroyInstance s id).1.instances = eraseKey s.instances id ∧
      lookupKey (OnDestroyInstance s id).1.instances id = none) := by
  refine ⟨fun hl => onDestroy_none s id hl, ?_⟩
  intro e hl
  rw [onDestroy_some s id e hl]
  exact ⟨rfl, rfl, lookupKey_eraseKey_self id h.1⟩

theorem destroy_instance_spec_witness :
    InstInv wLive ∧
    ((OnDestroyInstance wLive 0).2 = DestroyResult.ok 0 ∧
     (OnDestroyInstance wLive 0).1.instances = eraseKey wLive.instances 0 ∧
     lookupKey (OnDestroyInstance wLive 0).1.instances 0 = none) :=
  ⟨by decide, (destroy_instance_spec wLive 0 (by decide)).2 wEntry rfl⟩

/-- Claim C7: `OnPostMessage` with an id not in the instance table returns
no error and leaves the server state unchanged (its type has no error
channel, matching the void DBus method); with a live id it delivers the
message to the instance's message-handling entry point (the entry's
delivered-message list is extended) without waiting for any response. -/
theorem post_message_spec (s : ServerState) (id : Nat) (m : String) :
    (lookupKey s.instances id = none → OnPostMessage s id m = s) ∧
    (∀ e, lookupKey s.instances id = some e →
      lookupKey (OnPostMessage s id m).instances id
        = some (withReceived e m)) := by
  refine ⟨fun hl => onPost_none s id m hl, ?_⟩
  intro e hl
  rw [onPost_some s id m e hl]
  have h1 : (emitAll { s with instances := mapInsert s.instances id (withReceived e m) } id (e.behavior.onMessage m)).instances
      = mapInsert s.instances id (withReceived e m) :=
    emitAll_instances _ _ _
  rw [h1]
  exact lookupKey_mapInsert_self _ _ _

theorem post_message_spec_witness :
    OnPostMessage wLive 3 "x" = wLive :=
  (post_message_spec wLive 3 "x").1 rfl

/-- Claim C8 (counterexample): after a `SendSyncMessage` call on `wLive`
whose reply "pong" has been delivered to the caller, the instance still
holds a reply sink (the callback bound to invocation 5); the sink is not
cleared. -/
theorem sync_sink_not_cleared_counterexample :
    (OnSendSyncMessage wLive 0 "ping" 5).2 = SyncResult.replied "pong" ∧
    Option.map (fun x => x.syncReplyCb)
      (lookupKey (OnSendSyncMessage wLive 0 "ping" 5).1.instances 0)
      ≠ some none := by
  refine ⟨rfl, ?_⟩
  intro hcontra
  rw [show Option.map (fun x => x.syncReplyCb)
      (lookupKey (OnSendSyncMessage wLive 0 "ping" 5).1.instances 0)
      = some (some 5) from rfl] at hcontra
  cases hcontra

/-- Claim C8 (amended): the pending sync-reply sink of an instance is
installed by each `SendSyncMessage` call before message delivery, but it is
not cleared after the reply is delivered to the caller: after a completed
sync call the instance retains the sink bound to that call's invocation
until a later sync call overwrites it. -/
theorem sync_sink_persists_after_reply (s : ServerState) (id : Nat)
    (m r : String) (inv : Nat) (e : InstanceEntry) (posts : List String)
    (hl : lookupKey s.instances id = some e)
    (hb : e.behavior.onSyncMessage m = (posts, some r)) :
    (OnSendSyncMessage s id m inv).2 = SyncResult.replied r ∧
    Option.map (fun x => x.syncReplyCb)
      (lookupKey (OnSendSyncMessage s id m inv).1.instances id)
      = some (some inv) := by
  rw [onSendSync_replied s id m inv e posts r hl hb]
  refine ⟨rfl, ?_⟩
  have h1 : (emitAll { s with instances := mapInsert s.instances id (withSyncCb e inv m) } id posts).instances
      = mapInsert s.instances id (withSyncCb e inv m) :=
    emitAll_instances _ _ _
  rw [h1, lookupKey_mapInsert_self]
  rfl

theorem sync_sink_persists_after_reply_witness :
    ((OnSendSyncMessage wLive 0 "ping" 5).2 = SyncResult.replied "pong" ∧
     Option.map (fun x => x.syncReplyCb)
       (lookupKey (OnSendSyncMessage wLive 0 "ping" 5).1.instances 0)
       = some (some 5)) :=
  sync_sink_persists_after_reply wLive 0 "ping" "pong" 5 wEntry [] rfl rfl

/-- Claim C9: `Start` returns failure exactly when the connection to the
peer application's endpoint cannot be established; on connection failure the
state is unchanged (no module registration, no listening, no ready
notification); and when the connection succeeds `Start` returns success for
every list of system and extra-path modules, so individual module failures
never fail startup. -/
theorem start_failure_iff_connect (connectOk : Bool)
    (sys paths : List ExtensionData) (s : ServerState) :
    ((Start connectOk sys paths s).1 = false ↔ connectOk = false) ∧
    (connectOk = false → (Start connectOk sys paths s).2 = s) ∧
    (connectOk = true → (Start connectOk sys paths s).1 = true) := by
  cases connectOk <;> simp [Start]

theorem start_failure_iff_connect_witness :
    (((Start false [geoModule] [] initState).1 = false ↔ false = false) ∧
     (false = false → (Start false [geoModule] [] initState).2 = initState) ∧
     (false = true → (Start false [geoModule] [] initState).1 = true)) :=
  start_failure_iff_connect false [geoModule] [] initState

/-- Claim C10: `RegisterSymbols` checks the candidate's name and entry
points only against identifiers already in the registry namespace, never
against each other: it succeeds exactly when neither the name nor any entry
point is already registered, so a module whose entry points contain its own
name or repeat an entry point is still admitted, and the symbol set stays
duplicate-free (each identifier is stored once). -/
theorem admission_checks_prior_only (symbols : List String)
    (m : ExtensionData) (h : symbols.Nodup) :
    ((RegisterSymbols symbols m).fst = true ↔
      (m.name ∉ symbols ∧ ∀ ep ∈ m.entry_points, ep ∉ symbols)) ∧
    (RegisterSymbols symbols m).snd.Nodup := by
  refine ⟨registerSymbols_fst_iff symbols m, ?_⟩
  by_cases hok : (RegisterSymbols symbols m).fst = true
  · rw [registerSymbols_snd_of_fst symbols m hok]
    exact nodup_setInsert _ _ (nodup_foldl_setInsert _ _ h)
  · rw [registerSymbols_snd_of_not_fst symbols m hok]
    exact h

theorem admission_checks_prior_only_witness :
    List.Nodup ["x"] ∧
    (RegisterSymbols ["x"] selfNamedModule).fst = true ∧
    (((RegisterSymbols ["x"] selfNamedModule).fst = true ↔
      (selfNamedModule.name ∉ ["x"] ∧
        ∀ ep ∈ selfNamedModule.entry_points, ep ∉ ["x"])) ∧
     (RegisterSymbols ["x"] selfNamedModule).snd.Nodup) :=
  ⟨by decide, by decide,
    admission_checks_prior_only ["x"] selfNamedModule (by decide)⟩

end ExtServer
